import Mathlib

/-!
Shallow embedding of `cmd/internal/printer/printer.go`: a pretty-printer that
writes, for every type of a schema graph, a fields table and (when edges
exist) an edges table to an output sink.  The schema-graph data model
(`gen.Graph`, `gen.Type`, `gen.Field`, `gen.Edge`), the string conversions
(`fmt.Sprint`, `strconv`) and the table renderer (`tablewriter`) are external
dependencies of the repository; where their behaviour matters it is modelled
from the spec, as noted on each definition.

Strings are embedded as `String` for cell data and as `List Char` for the
byte stream written to the sink.
-/

namespace Printer

/-- Alignment values of the external table renderer (`tw.AlignLeft`,
`tw.AlignRight`). -/
inductive Align where
  | left
  | right
deriving DecidableEq

/-- Reference to an edge's target type; only its `Name` is read by the
printer (`e.Type.Name`). -/
structure TypeRef where
  Name : String
deriving DecidableEq

/-- Modelled from the spec: a `gen.Field` as consumed by the printer.  The
attributes are those the reflection loop reads by header name (`Name`,
`Type`, `Unique`, `Optional`, `Nillable`, `Default`, `UpdateDefault`,
`Immutable`, `StructTag`, `Validators`); `Typ` stands for the `Type`
attribute already stringified (as `fmt.Sprint` would print it), `Validators`
is the validator count, and `Comment` is the result of the dedicated
`Comment()` accessor. -/
structure Field where
  Name : String
  Typ : String
  Unique : Bool
  Optional : Bool
  Nillable : Bool
  Default : Bool
  UpdateDefault : Bool
  Immutable : Bool
  StructTag : String
  Validators : Int
  Comment : String
deriving DecidableEq

/-- Modelled from the spec: a `gen.Edge` as consumed by the printer.
`IsInverse` is the result of the `IsInverse()` accessor (the inverse flag),
`Inverse` the inverse edge's name (empty if none), and `Rel` the relation
kind's string form (`e.Rel.Type.String()`). -/
structure Edge where
  Name : String
  Typ : TypeRef
  IsInverse : Bool
  Inverse : String
  Rel : String
  Unique : Bool
  Optional : Bool
  Comment : String
deriving DecidableEq

/-- A `gen.Type`: name, optional identifier field, declared fields and edges
in declaration order. -/
structure GType where
  Name : String
  ID : Option Field
  Fields : List Field
  Edges : List Edge

/-- A `gen.Graph`: its ordered list of types (`g.Nodes`). -/
structure Graph where
  Nodes : List GType

/-- Modelled from the spec: `strconv.FormatBool` and `fmt.Sprint` on a Go
bool both yield the literal strings `true` / `false`. -/
def boolStr (b : Bool) : String :=
  if b then "true" else "false"

/-- Modelled from the spec: `fmt.Sprint` on a Go int prints it in decimal,
with a leading minus sign when negative. -/
def intStr (n : Int) : String := toString n

/-- Decimal value of a digit string. -/
def digitsToNat (cs : List Char) : Nat :=
  cs.foldl (fun a c => a * 10 + (c.toNat - '0'.toNat)) 0

/-- Modelled from the spec: whether `strconv.Atoi` succeeds on `s` — an
optional single sign followed by one or more decimal digits, whose value
fits a 64-bit int (out-of-range input makes `Atoi` return an error). -/
def atoiOk (s : String) : Bool :=
  match s.data with
  | [] => false
  | c :: rest =>
    let ds := if c == '-' || c == '+' then rest else c :: rest
    !ds.isEmpty && ds.all Char.isDigit &&
      (if c == '-' then digitsToNat ds ≤ 2 ^ 63 else digitsToNat ds < 2 ^ 63)

/-- Header of the fields table (line 47 of printer.go). -/
def fieldsHeader : List String :=
  ["Field", "Type", "Unique", "Optional", "Nillable", "Default",
   "UpdateDefault", "Immutable", "StructTag", "Validators", "Comment"]

/-- The row built for one field: cells 0..9 are the attributes looked up by
header name through reflection (cell 0 is mapped from `Name`), stringified
with `fmt.Sprint`; cell 10 is `f.Comment()` (lines 72-88). -/
def fieldRow (f : Field) : List String :=
  [f.Name, f.Typ, boolStr f.Unique, boolStr f.Optional, boolStr f.Nillable,
   boolStr f.Default, boolStr f.UpdateDefault, boolStr f.Immutable,
   f.StructTag, intStr f.Validators, f.Comment]

/-- Per-cell alignment decisions made while building one row: one decision
per cell 0..9 (the Comment cell gets none): right-aligned when the cell
parses as an integer, left otherwise (lines 81-86). -/
def rowAligns (f : Field) : List Align :=
  ((fieldRow f).take 10).map fun s => if atoiOk s then Align.right else Align.left

/-- Header of the edges table (line 121 of printer.go). -/
def edgesHeader : List String :=
  ["Edge", "Type", "Inverse", "BackRef", "Relation", "Unique", "Optional",
   "Comment"]

/-- The row appended for one edge (lines 126-135). -/
def edgeRow (e : Edge) : List String :=
  [e.Name, e.Typ.Name, boolStr e.IsInverse, e.Inverse, e.Rel,
   boolStr e.Unique, boolStr e.Optional, e.Comment]

/-- State of one `tablewriter` table: its header, appended body rows, and
the per-column alignment configuration last applied through
`WithRowAlignmentConfig` (entry `j` configures column `j`; columns beyond
the list get the default).  The constant style options the code always sets
(ASCII symbols, single-space padding, header auto-format off) are baked
into `renderTable`. -/
structure Table where
  header : List String
  rows : List (List String)
  perColumn : List Align
deriving DecidableEq

/-- Width of column `j`: the widest cell among the header and all rows. -/
def colWidth (t : Table) (j : Nat) : Nat :=
  (t.rows.map fun r => (r.getD j "").length).foldl max (t.header.getD j "").length

/-- Widths of all columns (one per header cell). -/
def colWidths (t : Table) : List Nat :=
  (List.range t.header.length).map (colWidth t)

/-- One cell padded to width `w` according to its alignment. -/
def padCell (a : Align) (w : Nat) (s : String) : List Char :=
  let pad := List.replicate (w - s.length) ' '
  match a with
  | Align.left => s.data ++ pad
  | Align.right => pad ++ s.data

/-- A horizontal ASCII border line, newline-terminated. -/
def borderLine (ws : List Nat) : List Char :=
  ['+'] ++ (ws.map fun w => List.replicate (w + 2) '-' ++ ['+']).flatten ++ ['\n']

/-- One table line holding the given cells, with single-space padding and
ASCII column separators, newline-terminated. -/
def rowLine (al : List Align) (ws : List Nat) (cells : List String) : List Char :=
  ['|'] ++ ((List.range ws.length).map fun j =>
    [' '] ++ padCell (al.getD j Align.left) (ws.getD j 0) (cells.getD j "")
      ++ [' ', '|']).flatten ++ ['\n']

/-- Modelled from the spec: the external `tablewriter` renderer.  ASCII
border symbols, single-space padding, header auto-format off: top border,
header line, separator border, one line per body row (honouring the
per-column alignment configuration), bottom border; every line terminated
by a newline, so consecutively rendered tables stack as separate lines. -/
def renderTable (t : Table) : List Char :=
  let ws := colWidths t
  borderLine ws ++ rowLine [] ws t.header ++ borderLine ws
    ++ (t.rows.map (rowLine t.perColumn ws)).flatten ++ borderLine ws

/-- Modelled from the spec: the table library's `Append` and `Render` can
report errors; their failure condition is internal to the external library,
so it is modelled as an oracle over the current table state. -/
structure Oracle where
  appendFails : Table → List String → Bool
  renderFails : Table → Bool

/-- A freshly created table with the given header set and nothing appended
(`tablewriter.NewWriter` followed by `Options` and `Header`). -/
def initTable (h : List String) : Table :=
  { header := h, rows := [], perColumn := [] }

/-- The fields loop (lines 72-98): for each field build its row and extend
the accumulated alignment list by the row's ten decisions, append the row
(returning `none` on an append error, as the code returns early), then
reapply the alignment configuration from the whole accumulated list.  The
accumulated alignment list and the applied configuration coincide, so the
configuration field doubles as the accumulator. -/
def buildRows (err : Oracle) : Table → List Field → Option Table
  | tbl, [] => some tbl
  | tbl, f :: fs =>
    if err.appendFails tbl (fieldRow f) then none
    else buildRows err
      { tbl with rows := tbl.rows ++ [fieldRow f],
                 perColumn := tbl.perColumn ++ rowAligns f } fs

/-- The edges loop (lines 124-139): append one row per edge, returning
`none` on an append error. -/
def buildEdgeRows (err : Oracle) : Table → List Edge → Option Table
  | tbl, [] => some tbl
  | tbl, e :: es =>
    if err.appendFails tbl (edgeRow e) then none
    else buildEdgeRows err { tbl with rows := tbl.rows ++ [edgeRow e] } es

/-- `strings.ReplaceAll(s, "\n", "\n\t")`: every newline gains a following
tab. -/
def replaceNL : List Char → List Char
  | [] => []
  | c :: rest =>
    if c = '\n' then '\n' :: '\t' :: replaceNL rest else c :: replaceNL rest

/-- The `id` slice (lines 69-71): the identifier field, if declared. -/
def idFields (t : GType) : List Field :=
  match t.ID with
  | some f => [f]
  | none => []

/-- The bytes `node` contributes to the sink under the failure oracle
(lines 43-147): the type-name line and both rendered tables accumulate in a
local buffer; any append or render failure makes the function return before
the final write, so the sink then receives nothing for this type.  On
success the buffer is written with every newline followed by a tab and one
extra trailing newline (line 147).  The edges table is rendered only when
the type has edges. -/
def nodeOutputE (err : Oracle) (t : GType) : List Char :=
  let buf0 := (t.Name ++ ":\n").data
  match buildRows err (initTable fieldsHeader) (idFields t ++ t.Fields) with
  | none => []
  | some ftbl =>
    if err.renderFails ftbl then []
    else
      match buildEdgeRows err (initTable edgesHeader) t.Edges with
      | none => []
      | some etbl =>
        if t.Edges.isEmpty then
          replaceNL (buf0 ++ renderTable ftbl) ++ ['\n']
        else if err.renderFails etbl then []
        else replaceNL (buf0 ++ renderTable ftbl ++ renderTable etbl) ++ ['\n']

/-- The oracle under which the external library never fails. -/
def noFail : Oracle :=
  { appendFails := fun _ _ => false, renderFails := fun _ => false }

/-- The bytes `node` contributes to the sink on the failure-free path. -/
def nodeOutput (t : GType) : List Char :=
  nodeOutputE noFail t

/-- `Print` (lines 26-30) under the failure oracle: the loop over the
graph's types calls `node` for each type in order, appending each type's
contribution to the sink. -/
def runPrintE (err : Oracle) (g : Graph) (sink : List Char) : List Char :=
  g.Nodes.foldl (fun s n => s ++ nodeOutputE err n) sink

/-- `Print` on the failure-free path. -/
def runPrint (g : Graph) (sink : List Char) : List Char :=
  runPrintE noFail g sink

/-- The whole output `Print` writes to an initially empty sink. -/
def printOutput (g : Graph) : List Char :=
  runPrint g []

/-- The fields table as it stands after the fields loop on the failure-free
path: identifier row first, then the declared fields in order; the final
alignment configuration is the concatenation of every row's decisions. -/
def fieldsTableOf (t : GType) : Table :=
  { header := fieldsHeader,
    rows := (idFields t ++ t.Fields).map fieldRow,
    perColumn := ((idFields t ++ t.Fields).map rowAligns).flatten }

/-- The edges table as it stands after the edges loop on the failure-free
path. -/
def edgesTableOf (t : GType) : Table :=
  { header := edgesHeader, rows := t.Edges.map edgeRow, perColumn := [] }

/-- The local buffer `b` as it stands before the final write: the type-name
line, the rendered fields table, and — only when the type has edges — the
rendered edges table. -/
def buffer (t : GType) : List Char :=
  (t.Name ++ ":\n").data ++ renderTable (fieldsTableOf t)
    ++ (if t.Edges.isEmpty then [] else renderTable (edgesTableOf t))

/-- The lines of a byte stream: maximal newline-free segments; a trailing
newline closes the last line without opening an empty one. -/
def linesOf : List Char → List (List Char)
  | [] => []
  | c :: rest =>
    if c = '\n' then [] :: linesOf rest
    else
      match linesOf rest with
      | [] => [[c]]
      | l :: ls => (c :: l) :: ls

/-- Prepend a tab to every line but the first. -/
def markTail : List (List Char) → List (List Char)
  | [] => []
  | l :: ls => l :: ls.map fun x => '\t' :: x

/-- A field with every flag off and empty optional attributes. -/
def fSimple : Field :=
  { Name := "name", Typ := "string", Unique := false, Optional := false,
    Nillable := false, Default := false, UpdateDefault := false,
    Immutable := false, StructTag := "", Validators := 0, Comment := "" }

/-- A field whose name is the digit string `1`. -/
def fNum : Field :=
  { Name := "1", Typ := "int", Unique := false, Optional := false,
    Nillable := false, Default := false, UpdateDefault := false,
    Immutable := false, StructTag := "", Validators := 0, Comment := "" }

/-- A field whose name is the non-numeric string `x`. -/
def fAlpha : Field :=
  { Name := "x", Typ := "string", Unique := false, Optional := false,
    Nillable := false, Default := false, UpdateDefault := false,
    Immutable := false, StructTag := "", Validators := 0, Comment := "" }

/-- An edge from the examples: `posts` pointing at type `Post`. -/
def eSimple : Edge :=
  { Name := "posts", Typ := { Name := "Post" }, IsInverse := false,
    Inverse := "", Rel := "O2M", Unique := false, Optional := true,
    Comment := "" }

/-- A type with no identifier field, no fields and no edges. -/
def tEmpty : GType :=
  { Name := "A", ID := none, Fields := [], Edges := [] }

/-- A type with an identifier field and one declared field. -/
def tWithId : GType :=
  { Name := "User", ID := some fSimple, Fields := [fNum], Edges := [] }

/-- A type with one edge. -/
def tWithEdge : GType :=
  { Name := "User", ID := none, Fields := [fSimple], Edges := [eSimple] }

/-- A type whose first field row has a numeric first cell and whose second
(last) field row has a non-numeric first cell. -/
def tTwoFields : GType :=
  { Name := "B", ID := none, Fields := [fNum, fAlpha], Edges := [] }

/-- An oracle whose every append reports an error. -/
def errAll : Oracle :=
  { appendFails := fun _ _ => true, renderFails := fun _ => false }

/-- An oracle under which only rendering the edges table fails: appends
succeed, and render fails exactly for a table carrying the edges header. -/
def errEdgeRender : Oracle :=
  { appendFails := fun _ _ => false,
    renderFails := fun tbl => decide (tbl.header = edgesHeader) }

theorem noFail_appendFails (tbl : Table) (row : List String) :
    noFail.appendFails tbl row = false := rfl

theorem noFail_renderFails (tbl : Table) :
    noFail.renderFails tbl = false := rfl

theorem buildRows_noFail (fs : List Field) : ∀ tbl : Table,
    buildRows noFail tbl fs =
      some { header := tbl.header, rows := tbl.rows ++ fs.map fieldRow,
             perColumn := tbl.perColumn ++ (fs.map rowAligns).flatten } := by
  induction fs with
  | nil => intro tbl; simp [buildRows]
  | cons f fs ih =>
    intro tbl
    rw [buildRows]
    simp only [noFail_appendFails, Bool.false_eq_true, if_false]
    rw [ih]
    simp [List.append_assoc]

theorem buildEdgeRows_noFail (es : List Edge) : ∀ tbl : Table,
    buildEdgeRows noFail tbl es =
      some { header := tbl.header, rows := tbl.rows ++ es.map edgeRow,
             perColumn := tbl.perColumn } := by
  induction es with
  | nil => intro tbl; simp [buildEdgeRows]
  | cons e es ih =>
    intro tbl
    rw [buildEdgeRows]
    simp only [noFail_appendFails, Bool.false_eq_true, if_false]
    rw [ih]
    simp [List.append_assoc]

theorem buildRows_init (t : GType) :
    buildRows noFail (initTable fieldsHeader) (idFields t ++ t.Fields)
      = some (fieldsTableOf t) := by
  rw [buildRows_noFail]
  simp [initTable, fieldsTableOf]

theorem buildEdgeRows_init (t : GType) :
    buildEdgeRows noFail (initTable edgesHeader) t.Edges
      = some (edgesTableOf t) := by
  rw [buildEdgeRows_noFail]
  simp [initTable, edgesTableOf]

theorem nodeOutput_eq (t : GType) :
    nodeOutput t = replaceNL (buffer t) ++ ['\n'] := by
  rw [nodeOutput, nodeOutputE, buildRows_init, buildEdgeRows_init]
  simp only [noFail_renderFails, Bool.false_eq_true, if_false]
  by_cases h : t.Edges.isEmpty <;>
    simp [h, buffer, List.append_assoc]

theorem replaceNL_append (a b : List Char) :
    replaceNL (a ++ b) = replaceNL a ++ replaceNL b := by
  induction a with
  | nil => simp [replaceNL]
  | cons c rest ih =>
    by_cases h : c = '\n' <;> simp [replaceNL, h, ih]

theorem linesOf_ne_nil (s : List Char) (h : s ≠ []) : linesOf s ≠ [] := by
  cases s with
  | nil => exact absurd rfl h
  | cons c rest =>
    by_cases hc : c = '\n'
    · simp [linesOf, hc]
    · simp only [linesOf, if_neg hc]
      cases linesOf rest <;> simp

theorem replaceNL_newline_cons (rest : List Char) :
    replaceNL ('\n' :: rest) = '\n' :: '\t' :: replaceNL rest := by
  simp [replaceNL]

theorem replaceNL_other_cons (c : Char) (rest : List Char) (hc : c ≠ '\n') :
    replaceNL (c :: rest) = c :: replaceNL rest := by
  simp [replaceNL, hc]

theorem linesOf_newline_cons (rest : List Char) :
    linesOf ('\n' :: rest) = [] :: linesOf rest := by
  simp [linesOf]

theorem linesOf_other_cons (c : Char) (rest : List Char) (hc : c ≠ '\n')
    (l : List Char) (ls : List (List Char)) (h : linesOf rest = l :: ls) :
    linesOf (c :: rest) = (c :: l) :: ls := by
  simp [linesOf, hc, h]

theorem linesOf_append_newline (a b : List Char) :
    linesOf (a ++ '\n' :: b) = linesOf (a ++ ['\n']) ++ linesOf b := by
  induction a with
  | nil => simp [linesOf_newline_cons, linesOf]
  | cons c rest ih =>
    by_cases hc : c = '\n'
    · subst hc
      rw [List.cons_append, List.cons_append, linesOf_newline_cons,
        linesOf_newline_cons, ih]
      simp
    · cases hl : linesOf (rest ++ ['\n']) with
      | nil => exact absurd hl (linesOf_ne_nil _ (by simp))
      | cons l ls =>
        have ihb : linesOf (rest ++ '\n' :: b) = l :: (ls ++ linesOf b) := by
          rw [ih, hl]; rfl
        rw [List.cons_append, linesOf_other_cons c _ hc _ _ ihb,
          List.cons_append, linesOf_other_cons c _ hc _ _ hl]
        rfl

theorem linesOf_replaceNL (s : List Char) :
    linesOf (replaceNL s ++ ['\n']) = markTail (linesOf (s ++ ['\n'])) := by
  induction s with
  | nil => simp [replaceNL, linesOf, markTail]
  | cons c rest ih =>
    cases hl : linesOf (rest ++ ['\n']) with
    | nil => exact absurd hl (linesOf_ne_nil _ (by simp))
    | cons l ls =>
      have ih' : linesOf (replaceNL rest ++ ['\n'])
          = l :: ls.map (fun x => '\t' :: x) := by
        rw [ih, hl, markTail]
      by_cases hc : c = '\n'
      · subst hc
        rw [replaceNL_newline_cons, List.cons_append, List.cons_append,
          linesOf_newline_cons,
          linesOf_other_cons '\t' _ (by decide) _ _ ih',
          List.cons_append, linesOf_newline_cons, hl]
        rfl
      · rw [replaceNL_other_cons c _ hc, List.cons_append,
          linesOf_other_cons c _ hc _ _ ih',
          List.cons_append, linesOf_other_cons c _ hc _ _ hl]
        rfl

theorem borderLine_ends_newline (ws : List Nat) :
    ∃ u, borderLine ws = u ++ ['\n'] :=
  ⟨'+' :: (ws.map fun w => List.replicate (w + 2) '-' ++ ['+']).flatten,
    by simp [borderLine]⟩

theorem renderTable_def (t : Table) :
    renderTable t = borderLine (colWidths t)
      ++ rowLine [] (colWidths t) t.header ++ borderLine (colWidths t)
      ++ (t.rows.map (rowLine t.perColumn (colWidths t))).flatten
      ++ borderLine (colWidths t) := rfl

theorem renderTable_ends_newline (t : Table) :
    ∃ u, renderTable t = u ++ ['\n'] := by
  obtain ⟨u, hu⟩ := borderLine_ends_newline (colWidths t)
  refine ⟨borderLine (colWidths t) ++ rowLine [] (colWidths t) t.header
    ++ borderLine (colWidths t)
    ++ (t.rows.map (rowLine t.perColumn (colWidths t))).flatten ++ u, ?_⟩
  rw [renderTable_def]
  nth_rewrite 3 [hu]
  simp [List.append_assoc]

theorem buffer_ends_newline (t : GType) :
    ∃ v, buffer t = v ++ ['\n'] := by
  rw [buffer]
  by_cases h : t.Edges.isEmpty
  · obtain ⟨u, hu⟩ := renderTable_ends_newline (fieldsTableOf t)
    exact ⟨(t.Name ++ ":\n").data ++ u, by rw [hu]; simp [h, List.append_assoc]⟩
  · obtain ⟨u, hu⟩ := renderTable_ends_newline (edgesTableOf t)
    exact ⟨(t.Name ++ ":\n").data ++ renderTable (fieldsTableOf t) ++ u,
      by rw [hu]; simp [h, List.append_assoc]⟩

theorem runPrintE_eq (err : Oracle) (ns : List GType) : ∀ sink : List Char,
    List.foldl (fun s n => s ++ nodeOutputE err n) sink ns
      = sink ++ (ns.map (nodeOutputE err)).flatten := by
  induction ns with
  | nil => intro sink; simp
  | cons n ns ih => intro sink; simp [List.foldl, ih, List.append_assoc]

theorem boolStr_cases (b : Bool) : boolStr b = "true" ∨ boolStr b = "false" := by
  cases b <;> simp [boolStr]

/-- C1: for a type declaring an identifier field and N other fields, the
fields table holds exactly N+1 body rows, the identifier's row first,
followed by the declared fields' rows in declaration order. -/
theorem fields_table_id_first (t : GType) (f : Field) (h : t.ID = some f) :
    (fieldsTableOf t).rows = fieldRow f :: t.Fields.map fieldRow
    ∧ (fieldsTableOf t).rows.length = t.Fields.length + 1 := by
  constructor
  · simp [fieldsTableOf, idFields, h]
  · simp [fieldsTableOf, idFields, h, Nat.add_comm]

theorem fields_table_id_first_witness :
    tWithId.ID = some fSimple
    ∧ (fieldsTableOf tWithId).rows = fieldRow fSimple :: tWithId.Fields.map fieldRow
    ∧ (fieldsTableOf tWithId).rows.length = tWithId.Fields.length + 1 :=
  ⟨rfl, (fields_table_id_first tWithId fSimple rfl).1,
    (fields_table_id_first tWithId fSimple rfl).2⟩

/-- C2: a type with zero edges gets no edges table at all — the buffer holds
only the type-name line and the rendered fields table; with zero fields and
no identifier the fields table is moreover header-only (no body rows). -/
theorem no_edges_no_table (t : GType) (h : t.Edges = []) :
    buffer t = (t.Name ++ ":\n").data ++ renderTable (fieldsTableOf t)
    ∧ (t.Fields = [] → t.ID = none → (fieldsTableOf t).rows = []) := by
  constructor
  · simp [buffer, h]
  · intro hf hid
    simp [fieldsTableOf, idFields, hid, hf]

theorem no_edges_no_table_witness :
    tEmpty.Edges = []
    ∧ buffer tEmpty
        = (tEmpty.Name ++ ":\n").data ++ renderTable (fieldsTableOf tEmpty)
    ∧ (fieldsTableOf tEmpty).rows = [] :=
  ⟨rfl, (no_edges_no_table tEmpty rfl).1, (no_edges_no_table tEmpty rfl).2 rfl rfl⟩

/-- C3: a type with at least one edge gets an edges table with header
`Edge Type Inverse BackRef Relation Unique Optional Comment` and one row per
edge in declaration order, holding the edge name, target type name, textual
inverse flag, inverse edge name, relation string, unique flag, optional flag
and comment; the rendered edges table follows the fields table in the
buffer. -/
theorem edges_table_shape (t : GType) (h : t.Edges ≠ []) :
    (edgesTableOf t).header
      = ["Edge", "Type", "Inverse", "BackRef", "Relation", "Unique",
         "Optional", "Comment"]
    ∧ (edgesTableOf t).rows = t.Edges.map (fun e =>
        [e.Name, e.Typ.Name, boolStr e.IsInverse, e.Inverse, e.Rel,
         boolStr e.Unique, boolStr e.Optional, e.Comment])
    ∧ buffer t = (t.Name ++ ":\n").data ++ renderTable (fieldsTableOf t)
        ++ renderTable (edgesTableOf t) := by
  refine ⟨rfl, by simp [edgesTableOf, edgeRow], ?_⟩
  cases hE : t.Edges with
  | nil => exact absurd hE h
  | cons e es => simp [buffer, hE, List.append_assoc]

theorem edges_table_shape_witness :
    tWithEdge.Edges ≠ []
    ∧ (edgesTableOf tWithEdge).rows = tWithEdge.Edges.map (fun e =>
        [e.Name, e.Typ.Name, boolStr e.IsInverse, e.Inverse, e.Rel,
         boolStr e.Unique, boolStr e.Optional, e.Comment]) :=
  ⟨by decide, (edges_table_shape tWithEdge (by decide)).2.1⟩

/-- C9: every boolean-valued column renders as exactly `true` or `false`:
cells 2..7 of every fields-table row and cells 2, 5, 6 of every edges-table
row. -/
theorem bool_cells_literal (t : GType) :
    (∀ row ∈ (fieldsTableOf t).rows, ∀ j ∈ ([2, 3, 4, 5, 6, 7] : List Nat),
      row.getD j "" = "true" ∨ row.getD j "" = "false")
    ∧ (∀ row ∈ (edgesTableOf t).rows, ∀ j ∈ ([2, 5, 6] : List Nat),
      row.getD j "" = "true" ∨ row.getD j "" = "false") := by
  constructor
  · intro row hrow j hj
    simp only [fieldsTableOf, List.mem_map] at hrow
    obtain ⟨f, _, rfl⟩ := hrow
    simp only [List.mem_cons, List.not_mem_nil, or_false] at hj
    rcases hj with rfl | rfl | rfl | rfl | rfl | rfl
    · simpa [fieldRow] using boolStr_cases f.Unique
    · simpa [fieldRow] using boolStr_cases f.Optional
    · simpa [fieldRow] using boolStr_cases f.Nillable
    · simpa [fieldRow] using boolStr_cases f.Default
    · simpa [fieldRow] using boolStr_cases f.UpdateDefault
    · simpa [fieldRow] using boolStr_cases f.Immutable
  · intro row hrow j hj
    simp only [edgesTableOf, List.mem_map] at hrow
    obtain ⟨e, _, rfl⟩ := hrow
    simp only [List.mem_cons, List.not_mem_nil, or_false] at hj
    rcases hj with rfl | rfl | rfl
    · simpa [edgeRow] using boolStr_cases e.IsInverse
    · simpa [edgeRow] using boolStr_cases e.Unique
    · simpa [edgeRow] using boolStr_cases e.Optional

theorem bool_cells_literal_witness :
    fieldRow fSimple ∈ (fieldsTableOf tWithId).rows
    ∧ ((fieldRow fSimple).getD 2 "" = "true"
        ∨ (fieldRow fSimple).getD 2 "" = "false") :=
  ⟨by decide,
    (bool_cells_literal tWithId).1 (fieldRow fSimple) (by decide) 2 (by decide)⟩

theorem rowAligns_length (f : Field) : (rowAligns f).length = 10 := by
  simp [rowAligns, fieldRow]

/-- C4 counterexample: for the concrete type with field rows named `1` then
`x`, the final per-column alignment entry of column 0 is `right` (the FIRST
row's decision, `1` parsing as an integer), while the last row's decision
for cell 0 is `left` (`x` does not parse) — so the final per-column
alignment does not reflect the last row processed. -/
theorem alignment_last_row_cex :
    (fieldsTableOf tTwoFields).perColumn[0]? = some Align.right
    ∧ (rowAligns fAlpha)[0]? = some Align.left
    ∧ (fieldsTableOf tTwoFields).perColumn[0]? ≠ (rowAligns fAlpha)[0]? := by
  decide

/-- C4 (amended): after every appended row the alignment configuration is
reapplied from the accumulated list of per-cell decisions; since the list
only ever grows by appending, the final configuration is the concatenation
of every row's ten decisions in processing order, and its entry for each of
the ten non-comment column positions is the FIRST row's decision for that
cell — later rows' decisions sit at positions at or beyond 10 and never
override them. -/
theorem alignment_accumulated (t : GType) (f : Field) (fs : List Field)
    (h : idFields t ++ t.Fields = f :: fs) :
    (fieldsTableOf t).perColumn = ((f :: fs).map rowAligns).flatten
    ∧ ∀ j, j < 10 → (fieldsTableOf t).perColumn[j]? = (rowAligns f)[j]? := by
  have hcol : (fieldsTableOf t).perColumn
      = rowAligns f ++ (fs.map rowAligns).flatten := by
    simp [fieldsTableOf, h]
  refine ⟨by simp [hcol], ?_⟩
  intro j hj
  rw [hcol, List.getElem?_append_left (by rw [rowAligns_length]; exact hj)]

theorem alignment_accumulated_witness :
    idFields tTwoFields ++ tTwoFields.Fields = fNum :: [fAlpha]
    ∧ (fieldsTableOf tTwoFields).perColumn[0]? = (rowAligns fNum)[0]? :=
  ⟨rfl, (alignment_accumulated tTwoFields fNum [fAlpha] rfl).2 0 (by decide)⟩

set_option maxRecDepth 100000 in
/-- C5 counterexample: for a concrete type, the written block's last three
characters are newline, tab, newline, and its last line consists of a single
tab — trailing content after the last table line, beyond the final
newline. -/
theorem block_trailing_tab_cex :
    (linesOf (nodeOutput tEmpty)).getLast? = some ['\t']
    ∧ (nodeOutput tEmpty).drop ((nodeOutput tEmpty).length - 3)
        = ['\n', '\t', '\n'] := by
  decide

/-- C5 (amended): every type block ends with exactly one final newline, but
between the last table line's newline and that final newline sits one tab
character: the block's byte stream ends with newline, tab, newline, i.e. a
trailing line holding a single tab. -/
theorem block_ends_tab_line (t : GType) :
    ∃ u, nodeOutput t = u ++ ['\n', '\t', '\n'] := by
  obtain ⟨v, hv⟩ := buffer_ends_newline t
  refine ⟨replaceNL v, ?_⟩
  rw [nodeOutput_eq, hv, replaceNL_append]
  simp [replaceNL]

/-- C6: the lines written by Print decompose into the per-type blocks'
lines, and within each block every line except the first starts with a tab
character. -/
theorem print_lines_tabbed (g : Graph) :
    linesOf (printOutput g)
      = (g.Nodes.map fun n => linesOf (nodeOutput n)).flatten
    ∧ ∀ n : GType, ∀ l ∈ (linesOf (nodeOutput n)).tail, ∃ r, l = '\t' :: r := by
  constructor
  · rw [printOutput, runPrint, runPrintE, runPrintE_eq]
    simp only [List.nil_append]
    induction g.Nodes with
    | nil => simp [linesOf]
    | cons n ns ih =>
      simp only [List.map_cons, List.flatten_cons]
      have hne : nodeOutputE noFail n = replaceNL (buffer n) ++ ['\n'] :=
        nodeOutput_eq n
      rw [hne, List.append_assoc, List.singleton_append,
        linesOf_append_newline, ih, nodeOutput_eq n]
  · intro n l hl
    rw [nodeOutput_eq, linesOf_replaceNL] at hl
    cases hb : linesOf (buffer n ++ ['\n']) with
    | nil => rw [hb] at hl; simp [markTail] at hl
    | cons x xs =>
      rw [hb] at hl
      simp only [markTail, List.tail_cons] at hl
      obtain ⟨y, _, rfl⟩ := List.mem_map.mp hl
      exact ⟨y, rfl⟩

set_option maxRecDepth 100000 in
theorem print_lines_tabbed_witness :
    ((linesOf (nodeOutput tEmpty)).tail.headD [])
        ∈ (linesOf (nodeOutput tEmpty)).tail
    ∧ ∃ r, (linesOf (nodeOutput tEmpty)).tail.headD [] = '\t' :: r :=
  ⟨by decide, (print_lines_tabbed ⟨[tEmpty]⟩).2 tEmpty _ (by decide)⟩

/-- C7: a failure for one type does not abort the loop over the graph's
types: under any failure oracle the bytes Print appends to the sink are the
concatenation of every type's own contribution, each computed independently
of any failure in the other types. -/
theorem print_no_short_circuit (err : Oracle) (g : Graph) (sink : List Char) :
    runPrintE err g sink = sink ++ (g.Nodes.map (nodeOutputE err)).flatten :=
  runPrintE_eq err g.Nodes sink

/-- C8: Print is deterministic in the graph: two invocations with the same
graph on two sinks append byte-identical output to both. -/
theorem print_deterministic (g : Graph) (s₁ s₂ : List Char) :
    (runPrint g s₁).drop s₁.length = (runPrint g s₂).drop s₂.length := by
  rw [runPrint, runPrint, runPrintE, runPrintE, runPrintE_eq, runPrintE_eq,
    List.drop_left, List.drop_left]

theorem buildRows_cases (err : Oracle) (fs : List Field) : ∀ tbl : Table,
    buildRows err tbl fs = none
    ∨ buildRows err tbl fs = buildRows noFail tbl fs := by
  induction fs with
  | nil => intro tbl; right; rfl
  | cons f fs ih =>
    intro tbl
    by_cases h : err.appendFails tbl (fieldRow f) = true
    · left; simp [buildRows, h]
    · rcases ih ({ tbl with rows := tbl.rows ++ [fieldRow f], perColumn := tbl.perColumn ++ rowAligns f }) with h1 | h1
      · left; simp [buildRows, h, h1]
      · right; simp [buildRows, h, noFail_appendFails, h1]

theorem buildEdgeRows_cases (err : Oracle) (es : List Edge) : ∀ tbl : Table,
    buildEdgeRows err tbl es = none
    ∨ buildEdgeRows err tbl es = buildEdgeRows noFail tbl es := by
  induction es with
  | nil => intro tbl; right; rfl
  | cons e es ih =>
    intro tbl
    by_cases h : err.appendFails tbl (edgeRow e) = true
    · left; simp [buildEdgeRows, h]
    · rcases ih ({ tbl with rows := tbl.rows ++ [edgeRow e] }) with h1 | h1
      · left; simp [buildEdgeRows, h, h1]
      · right; simp [buildEdgeRows, h, noFail_appendFails, h1]

/-- C10: a type's contribution to the sink is all-or-nothing — either the
complete block or zero bytes — and every failure mode (fields-row append,
edge-row append, fields-table render, edges-table render on a type with
edges) yields zero bytes for that type: not even the type-name line or the
already-rendered fields table reaches the sink, because everything
accumulates in a local buffer flushed only as the final step. -/
theorem node_failure_no_bytes (err : Oracle) (t : GType) :
    (nodeOutputE err t = [] ∨ nodeOutputE err t = nodeOutput t)
    ∧ (buildRows err (initTable fieldsHeader) (idFields t ++ t.Fields) = none
        → nodeOutputE err t = [])
    ∧ (buildEdgeRows err (initTable edgesHeader) t.Edges = none
        → nodeOutputE err t = [])
    ∧ (∀ ftbl, buildRows err (initTable fieldsHeader) (idFields t ++ t.Fields)
          = some ftbl
        → err.renderFails ftbl = true → nodeOutputE err t = [])
    ∧ (∀ etbl, buildEdgeRows err (initTable edgesHeader) t.Edges = some etbl
        → t.Edges.isEmpty = false → err.renderFails etbl = true
        → nodeOutputE err t = []) := by
  rcases buildRows_cases err (idFields t ++ t.Fields) (initTable fieldsHeader)
    with hb | hb
  · have hout : nodeOutputE err t = [] := by
      rw [nodeOutputE, hb]
    exact ⟨Or.inl hout, fun _ => hout, fun _ => hout, fun _ _ _ => hout,
      fun _ _ _ _ => hout⟩
  · rw [buildRows_init] at hb
    cases hr : err.renderFails (fieldsTableOf t) with
    | true =>
      have hout : nodeOutputE err t = [] := by
        rw [nodeOutputE, hb]
        simp [hr]
      exact ⟨Or.inl hout, fun _ => hout, fun _ => hout, fun _ _ _ => hout,
        fun _ _ _ _ => hout⟩
    | false =>
      rcases buildEdgeRows_cases err t.Edges (initTable edgesHeader) with he | he
      · have hout : nodeOutputE err t = [] := by
          rw [nodeOutputE, hb]
          simp [hr, he]
        exact ⟨Or.inl hout, fun _ => hout, fun _ => hout, fun _ _ _ => hout,
          fun _ _ _ _ => hout⟩
      · rw [buildEdgeRows_init] at he
        have hc2 : buildRows err (initTable fieldsHeader)
            (idFields t ++ t.Fields) = none → nodeOutputE err t = [] := by
          intro hn; rw [hb] at hn; cases hn
        have hc3 : buildEdgeRows err (initTable edgesHeader) t.Edges = none
            → nodeOutputE err t = [] := by
          intro hn; rw [he] at hn; cases hn
        have hc4 : ∀ ftbl, buildRows err (initTable fieldsHeader)
              (idFields t ++ t.Fields) = some ftbl
            → err.renderFails ftbl = true → nodeOutputE err t = [] := by
          intro ftbl hf hren
          rw [hb] at hf
          injection hf with hf'
          rw [hf'] at hr
          rw [hren] at hr
          simp at hr
        cases hEmp : t.Edges.isEmpty with
        | true =>
          have hsucc : nodeOutputE err t = nodeOutput t := by
            rw [nodeOutputE, hb, nodeOutput, nodeOutputE, buildRows_init,
              buildEdgeRows_init]
            simp [hr, he, hEmp, noFail_renderFails]
          exact ⟨Or.inr hsucc, hc2, hc3, hc4,
            fun _ _ hEmpF _ => absurd hEmpF (by simp)⟩
        | false =>
          cases hr2 : err.renderFails (edgesTableOf t) with
          | true =>
            have hout : nodeOutputE err t = [] := by
              rw [nodeOutputE, hb]
              simp [hr, he, hEmp, hr2]
            exact ⟨Or.inl hout, hc2, hc3, hc4, fun _ _ _ _ => hout⟩
          | false =>
            have hc5 : ∀ etbl, buildEdgeRows err (initTable edgesHeader)
                  t.Edges = some etbl
                → false = false → err.renderFails etbl = true
                → nodeOutputE err t = [] := by
              intro etbl hE _ hren
              rw [he] at hE
              injection hE with hE'
              rw [hE'] at hr2
              rw [hren] at hr2
              simp at hr2
            have hsucc : nodeOutputE err t = nodeOutput t := by
              rw [nodeOutputE, hb, nodeOutput, nodeOutputE, buildRows_init,
                buildEdgeRows_init]
              simp [hr, he, hEmp, hr2, noFail_renderFails]
            exact ⟨Or.inr hsucc, hc2, hc3, hc4, hc5⟩

theorem node_failure_no_bytes_witness :
    (buildRows errAll (initTable fieldsHeader)
        (idFields tWithId ++ tWithId.Fields) = none
      ∧ nodeOutputE errAll tWithId = [])
    ∧ (buildEdgeRows errEdgeRender (initTable edgesHeader) tWithEdge.Edges
          = some (edgesTableOf tWithEdge)
      ∧ tWithEdge.Edges.isEmpty = false
      ∧ errEdgeRender.renderFails (edgesTableOf tWithEdge) = true
      ∧ nodeOutputE errEdgeRender tWithEdge = []) :=
  ⟨⟨rfl, (node_failure_no_bytes errAll tWithId).2.1 rfl⟩,
    ⟨by decide, rfl, by decide,
      (node_failure_no_bytes errEdgeRender tWithEdge).2.2.2.2
        (edgesTableOf tWithEdge) (by decide) rfl (by decide)⟩⟩

end Printer
